import Mathlib

/-!
# Verification of the region-proposal pipeline (`model/rpn_function.py`)

A shallow embedding of the anchor generator and the region-proposal
network of the repository, over exact rational arithmetic.  Tensors are
modelled as lists (batch and level dimensions become list nesting),
`torch.round` as round-half-to-even on `ℚ`, and the external
collaborators that live outside the translated file (`det_utils.Matcher`,
`det_utils.BalancedPositiveNegativeSampler`, `torchvision`'s focal loss,
`torch.sqrt`) are passed in as function parameters.
-/

/-- Numeric precision of a tensor (`torch.dtype`). -/
inductive Dtype where
  | float32
  | float64
deriving DecidableEq

/-- Compute device of a tensor (`torch.device`). -/
inductive Device where
  | cpu
  | cuda
deriving DecidableEq

/-- An axis-aligned box `(xmin, ymin, xmax, ymax)`, the row format used
throughout `rpn_function.py`. -/
structure Box where
  xmin : ℚ
  ymin : ℚ
  xmax : ℚ
  ymax : ℚ
deriving DecidableEq

/-- `torch.round`: round half to even ("banker's rounding"). -/
def roundTE (q : ℚ) : ℤ :=
  if q - ⌊q⌋ < 1 / 2 then ⌊q⌋
  else if 1 / 2 < q - ⌊q⌋ then ⌊q⌋ + 1
  else if 2 ∣ ⌊q⌋ then ⌊q⌋ else ⌊q⌋ + 1

/-- `AnchorsGenerator.generate_anchors`: anchor templates centred at the
origin.  `sqrtf` stands for `torch.sqrt`; `h_ratios = sqrt(aspect_ratios)`,
`w_ratios = 1 / h_ratios`, the `[:, None] * [None, :]` outer products are
flattened ratio-major, and every coordinate of
`stack([-ws, -hs, ws, hs], 1) / 2` is rounded. -/
def generate_anchors (sqrtf : ℚ → ℚ) (scales aspect_ratios : List ℚ) : List Box :=
  let h_ratios := aspect_ratios.map sqrtf
  let w_ratios := h_ratios.map fun h => 1 / h
  let ws := w_ratios.flatMap fun wr => scales.map fun s => wr * s
  let hs := h_ratios.flatMap fun hr => scales.map fun s => hr * s
  (ws.zip hs).map fun p =>
    Box.mk ((roundTE (-p.1 / 2) : ℤ) : ℚ) ((roundTE (-p.2 / 2) : ℤ) : ℚ)
      ((roundTE (p.1 / 2) : ℤ) : ℚ) ((roundTE (p.2 / 2) : ℤ) : ℚ)

/-- The generator's long-lived template cache entry: the per-level anchor
templates together with the dtype and device they were built for. -/
structure CellAnchors where
  dtype : Dtype
  device : Device
  boxes : List (List Box)
deriving DecidableEq

/-- State of `AnchorsGenerator`: the per-level `sizes` and `aspect_ratios`
configuration, the long-lived template cache `cell_anchors`, and the
per-call grid cache `_cache` keyed by `(grid_sizes, strides)`. -/
structure AnchorsGenerator where
  sizes : List (List ℚ)
  aspect_ratios : List (List ℚ)
  cell_anchors : Option CellAnchors
  _cache : List ((List (ℕ × ℕ) × List (ℕ × ℕ)) × List (List Box))
deriving DecidableEq

/-- The templates `set_cell_anchors` builds on its recompute path:
`generate_anchors(sizes, aspect_ratios, dtype, device)` for every level. -/
def mk_cell_anchors (sqrtf : ℚ → ℚ) (g : AnchorsGenerator) (dtype : Dtype)
    (device : Device) : CellAnchors :=
  ⟨dtype, device, (g.sizes.zip g.aspect_ratios).map fun p => generate_anchors sqrtf p.1 p.2⟩

/-- `AnchorsGenerator.set_cell_anchors`: return unchanged when templates
are cached on the requested device (only the device is compared);
otherwise recompute the templates for `(dtype, device)`. -/
def set_cell_anchors (sqrtf : ℚ → ℚ) (g : AnchorsGenerator) (dtype : Dtype)
    (device : Device) : AnchorsGenerator :=
  match g.cell_anchors with
  | some ca =>
    if ca.device = device then g
    else { g with cell_anchors := some (mk_cell_anchors sqrtf g dtype device) }
  | none => { g with cell_anchors := some (mk_cell_anchors sqrtf g dtype device) }

/-- `AnchorsGenerator.num_anchors_per_location`:
`len(sizes) * len(aspect_ratios)` per level. -/
def num_anchors_per_location (g : AnchorsGenerator) : List ℕ :=
  (g.sizes.zip g.aspect_ratios).map fun p => p.1.length * p.2.length

/-- One level of `AnchorsGenerator.grid_anchors`: shift the zero-centred
templates to every grid location; `meshgrid(shifts_y, shifts_x)` flattens
y-major (row-major), and `shifts.view(-1,1,4) + base.view(1,-1,4)` puts
the template index innermost. -/
def shifts_anchors (base_anchors : List Box) (grid_height grid_width : ℕ)
    (stride_height stride_width : ℕ) : List Box :=
  (List.range grid_height).flatMap fun y =>
    (List.range grid_width).flatMap fun x =>
      base_anchors.map fun b =>
        Box.mk (b.xmin + x * stride_width) (b.ymin + y * stride_height)
          (b.xmax + x * stride_width) (b.ymax + y * stride_height)

/-- `AnchorsGenerator.grid_anchors`: per level (zip of grid sizes, strides
and cached templates), instantiate the templates on the grid. -/
def grid_anchors (cell_anchors : List (List Box)) (grid_sizes strides : List (ℕ × ℕ)) :
    List (List Box) :=
  (grid_sizes.zip (strides.zip cell_anchors)).map fun t =>
    shifts_anchors t.2.2 t.1.1 t.1.2 t.2.1.1 t.2.1.2

/-- `AnchorsGenerator.cached_grid_anchors`: look the geometry key up in
the per-call cache, computing and inserting on a miss. -/
def cached_grid_anchors (g : AnchorsGenerator) (grid_sizes strides : List (ℕ × ℕ)) :
    List (List Box) × AnchorsGenerator :=
  let key := (grid_sizes, strides)
  match g._cache.lookup key with
  | some anchors => (anchors, g)
  | none =>
    let cell := (g.cell_anchors.map CellAnchors.boxes).getD []
    let anchors := grid_anchors cell grid_sizes strides
    (anchors, { g with _cache := (key, anchors) :: g._cache })

/-- `AnchorsGenerator.forward`: compute integer strides from the padded
image size, refresh the templates, fetch the grid anchors through the
per-call cache, hand the same per-level anchors to every image of the
batch (concatenated across levels), and clear the grid cache. -/
def AnchorsGenerator.forward (sqrtf : ℚ → ℚ) (g : AnchorsGenerator)
    (grid_sizes : List (ℕ × ℕ)) (image_size : ℕ × ℕ)
    (image_sizes : List (ℕ × ℕ)) (dtype : Dtype) (device : Device) :
    List (List Box) × AnchorsGenerator :=
  let strides := grid_sizes.map fun gsz => (image_size.1 / gsz.1, image_size.2 / gsz.2)
  let g1 := set_cell_anchors sqrtf g dtype device
  let p := cached_grid_anchors g1 grid_sizes strides
  let anchors := image_sizes.map fun _ => p.1.flatten
  (anchors, { p.2 with _cache := [] })

/-- `permute_and_flatten` (single image): a level map of shape
`(A*C, H, W)` — given as a function of `(channel, h, w)` — is reshaped to
`(A, C, H, W)`, permuted to `(H, W, A, C)` and flattened to rows of
length `C`, so row `(h*W + w)*A + a` holds channels `a*C .. a*C+C-1`
at grid location `(h, w)`. -/
def permute_and_flatten (layer : ℕ → ℕ → ℕ → ℚ) (A C H W : ℕ) : List (List ℚ) :=
  (List.range H).flatMap fun h =>
    (List.range W).flatMap fun w =>
      (List.range A).map fun a =>
        (List.range C).map fun c => layer (a * C + c) h w

/-- One level of predictor output (single image): the classification map
and the regression map as functions of `(channel, h, w)`, plus the
channel counts `A*C` and `A*4` and the spatial shape, as read from the
tensors' shapes in `concat_box_prediction_layers`. -/
structure LevelPred where
  cls : ℕ → ℕ → ℕ → ℚ
  reg : ℕ → ℕ → ℕ → ℚ
  AxC : ℕ
  Ax4 : ℕ
  H : ℕ
  W : ℕ

instance : Inhabited LevelPred :=
  ⟨⟨fun _ _ _ => 0, fun _ _ _ => 0, 0, 0, 0, 0⟩⟩

/-- `concat_box_prediction_layers` (single image): per level recover
`A = Ax4 / 4` and `C = AxC / A`, permute-and-flatten both maps, and
concatenate across levels. -/
def concat_box_prediction_layers (levels : List LevelPred) :
    List (List ℚ) × List (List ℚ) :=
  (levels.flatMap fun L => permute_and_flatten L.cls (L.Ax4 / 4) (L.AxC / (L.Ax4 / 4)) L.H L.W,
   levels.flatMap fun L => permute_and_flatten L.reg (L.Ax4 / 4) 4 L.H L.W)

/-- Modelled from the spec: `box_ops.box_iou` (module `model/boxes.py`
is not part of the translated sources): "pairwise intersection-over-union
matrix; standard area formula", rows indexed by the first box list. -/
def box_iou (boxes1 boxes2 : List Box) : List (List ℚ) :=
  boxes1.map fun a =>
    boxes2.map fun b =>
      let inter := max 0 (min a.xmax b.xmax - max a.xmin b.xmin) *
        max 0 (min a.ymax b.ymax - max a.ymin b.ymin)
      let area1 := (a.xmax - a.xmin) * (a.ymax - a.ymin)
      let area2 := (b.xmax - b.xmin) * (b.ymax - b.ymin)
      inter / (area1 + area2 - inter)

/-- The all-zero placeholder box used for unmatched / empty-ground-truth
anchors (`torch.zeros`). -/
def zeroBox : Box := ⟨0, 0, 0, 0⟩

/-- `RegionProposalNetwork.assign_targets_to_anchors`.  The proposal
matcher (`det_utils.Matcher`, outside the translated file) is a parameter
mapping the IoU matrix to one integer per anchor: a ground-truth index
`≥ 0`, `-1` (`BELOW_LOW_THRESHOLD`) or `-2` (`BETWEEN_THRESHOLDS`).
Per image: an empty ground-truth set yields all-background labels and
all-zero matched boxes; otherwise labels start as `(idx ≥ 0)` cast to
float, then `-1` entries are set to `0.0` and `-2` entries to `-1.0`,
and matched boxes index the ground truth at `idx.clamp(min=0)`. -/
def assign_targets_to_anchors (matcher : List (List ℚ) → List ℤ)
    (anchors targets : List (List Box)) : List (List ℚ) × List (List Box) :=
  let per := (anchors.zip targets).map fun p =>
    let anchors_per_image := p.1
    let gt_boxes := p.2
    if gt_boxes.length = 0 then
      (List.replicate anchors_per_image.length (0 : ℚ),
       List.replicate anchors_per_image.length zeroBox)
    else
      let match_quality_matrix := box_iou gt_boxes anchors_per_image
      let matched_idxs := matcher match_quality_matrix
      let matched_gt_boxes_per_image :=
        matched_idxs.map fun i => gt_boxes.getD (max i 0).toNat zeroBox
      let labels_per_image := matched_idxs.map fun i =>
        if 0 ≤ i then (1 : ℚ) else if i = -1 then 0 else if i = -2 then -1 else 0
      (labels_per_image, matched_gt_boxes_per_image)
  (per.map Prod.fst, per.map Prod.snd)

/-- Insert into a list sorted by the boolean relation `r` (used to model
`torch.topk`'s descending value sort). -/
def insertSorted (r : ℕ → ℕ → Bool) (a : ℕ) : List ℕ → List ℕ
  | [] => [a]
  | b :: bs => if r a b then a :: b :: bs else b :: insertSorted r a bs

/-- Insertion sort by the boolean relation `r`. -/
def isort (r : ℕ → ℕ → Bool) : List ℕ → List ℕ
  | [] => []
  | a :: as => insertSorted r a (isort r as)

/-- The descending-score order on the indices of `xs` (ties broken by
index, making the order linear so the sorted result is unique). -/
def topOrder (xs : List ℚ) (i j : ℕ) : Bool :=
  xs.getD j 0 < xs.getD i 0 ∨ (xs.getD i 0 = xs.getD j 0 ∧ i ≤ j)

/-- `torch.topk(_, k).indices` on a score vector: the indices of the `k`
largest scores, highest first. -/
def topkIdx (xs : List ℚ) (k : ℕ) : List ℕ :=
  (isort (topOrder xs) (List.range xs.length)).take k

/-- `RegionProposalNetwork._get_top_n_idx` (single image): split the
objectness row into per-level chunks, take the top
`min(pre_nms_top_n, num_anchors)` indices of each chunk, offset them by
the running anchor count, and concatenate. -/
def get_top_n_idx (pre_nms_top_n : ℕ) : List ℚ → List ℕ → ℕ → List ℕ
  | _, [], _ => []
  | ob, n :: rest, offset =>
    let chunk := ob.take n
    let k := min pre_nms_top_n chunk.length
    ((topkIdx chunk k).map (· + offset)) ++
      get_top_n_idx pre_nms_top_n (ob.drop n) rest (offset + n)

/-- Indices of the `true` entries of a boolean mask, ascending
(`torch.where(mask)[0]`). -/
def whereTrue : List Bool → List ℕ
  | [] => []
  | b :: bs => (if b then [0] else []) ++ (whereTrue bs).map (· + 1)

/-- Modelled from the spec: `det_utils.smooth_l1_loss` (module
`model/det_utils.py` is not part of the translated sources): the
"robust (Huber-style) loss … summed (not averaged)" — per element
`d = |x - t|`, the term is `d² / (2β)` when `d < β` and `d - β/2`
otherwise; `huberRow` is one row's sum over the four coordinates. -/
def huberRow (x t : List ℚ) (beta : ℚ) : ℚ :=
  ((x.zip t).map fun q =>
    let d := |q.1 - q.2|
    if d < beta then d ^ 2 / (2 * beta) else d - beta / 2).sum

/-- Sum of the per-row Huber terms over all rows (`size_average=False`). -/
def smooth_l1_loss (input target : List (List ℚ)) (beta : ℚ) : ℚ :=
  ((input.zip target).map fun p => huberRow p.1 p.2 beta).sum

/-- `RegionProposalNetwork.compute_loss`.  The balanced sampler
(`det_utils.BalancedPositiveNegativeSampler`) and the focal loss
(`torchvision.ops.sigmoid_focal_loss`, applied to the gathered scores,
the gathered labels, `alpha` and `gamma`) live outside the translated
file and are parameters.  The localization loss is the summed smooth-L1
over the sampled positive indices divided by the number of all sampled
indices; `alpha` is the sampled-negative fraction and `gamma = 1`. -/
def compute_loss (sampler : List (List ℚ) → List (List Bool) × List (List Bool))
    (focal : List ℚ → List ℚ → ℚ → ℚ → ℚ)
    (objectness : List ℚ) (pred_bbox_deltas : List (List ℚ))
    (labels : List (List ℚ)) (regression_targets : List (List (List ℚ))) : ℚ × ℚ :=
  let masks := sampler labels
  let sampled_pos_inds := whereTrue masks.1.flatten
  let sampled_neg_inds := whereTrue masks.2.flatten
  let sampled_inds := sampled_pos_inds ++ sampled_neg_inds
  let labels_cat := labels.flatten
  let regression_targets_cat := regression_targets.flatten
  let box_loss := smooth_l1_loss
      (sampled_pos_inds.map fun i => pred_bbox_deltas.getD i [])
      (sampled_pos_inds.map fun i => regression_targets_cat.getD i [])
      (1 / 9) / ((sampled_inds.length : ℚ))
  let alpha := ((sampled_neg_inds.length : ℚ)) /
      ((sampled_pos_inds.length : ℚ) + (sampled_neg_inds.length : ℚ))
  let objectness_loss := focal (sampled_inds.map fun i => objectness.getD i 0)
      (sampled_inds.map fun i => labels_cat.getD i 0) alpha 1
  (objectness_loss, box_loss)

/-- The training/targets branch of `RegionProposalNetwork.forward`
(the code after `losses = {}`).  The box coder's `encode`
(`det_utils.BoxCoder`, outside the translated file) is a parameter.
Outside training mode the losses dict stays empty (`none`); in training
mode a missing `targets` trips the `assert` (modelled as an error), and
otherwise targets are assigned, regression targets encoded, and the two
losses computed. -/
def RegionProposalNetwork.forward_losses
    (matcher : List (List ℚ) → List ℤ)
    (sampler : List (List ℚ) → List (List Bool) × List (List Bool))
    (focal : List ℚ → List ℚ → ℚ → ℚ → ℚ)
    (encode : List (List Box) → List (List Box) → List (List (List ℚ)))
    (training : Bool)
    (objectness : List ℚ) (pred_bbox_deltas : List (List ℚ))
    (anchors : List (List Box))
    (targets : Option (List (List Box))) : Except String (Option (ℚ × ℚ)) :=
  if training then
    match targets with
    | none => .error "targets should not be None"
    | some t =>
      let assigned := assign_targets_to_anchors matcher anchors t
      let regression_targets := encode assigned.2 anchors
      let losses := compute_loss sampler focal objectness pred_bbox_deltas
        assigned.1 regression_targets
      .ok (some losses)
  else .ok none

/-- A concrete one-level predictor output (one template, one class
channel, a 1-by-2 grid) used to exercise the alignment of flattened
predictions with grid anchors. -/
def exampleLevel : LevelPred :=
  ⟨fun ch y x => (ch : ℚ) + 10 * y + 100 * x, fun ch _ _ => (ch : ℚ) + 7, 1, 4, 1, 2⟩

section Helpers

/-- `set_cell_anchors` never touches the grid cache. -/
lemma set_cell_anchors_cache (sqrtf : ℚ → ℚ) (g : AnchorsGenerator) (dtype : Dtype)
    (device : Device) : (set_cell_anchors sqrtf g dtype device)._cache = g._cache := by
  unfold set_cell_anchors
  rcases g.cell_anchors with _ | ca
  · rfl
  · dsimp only
    split <;> rfl

/-- Mapping a constant function is `List.replicate`. -/
lemma map_const_eq_replicate {α β : Type} (l : List α) (b : β) :
    (l.map fun _ => b) = List.replicate l.length b := by
  induction l with
  | nil => rfl
  | cons a l ih => simp [List.replicate, ih]

end Helpers

/-- C1 counterexample: a generator whose templates are cached for
`(float32, cpu)` is asked for `(float64, cpu)`; `set_cell_anchors`
returns the state unchanged because only the device is compared, so the
cached templates do not match the requested dtype. -/
theorem C1_counterexample :
    set_cell_anchors (fun q => q)
      ⟨[[32]], [[1]], some ⟨Dtype.float32, Device.cpu, [[⟨-16, -16, 16, 16⟩]]⟩, []⟩
      Dtype.float64 Device.cpu
      = ⟨[[32]], [[1]], some ⟨Dtype.float32, Device.cpu, [[⟨-16, -16, 16, 16⟩]]⟩, []⟩
    ∧ Dtype.float32 ≠ Dtype.float64 :=
  ⟨rfl, by decide⟩

/-- C1 (amended): `set_cell_anchors` recomputes the templates exactly
when none are cached or when the cached device differs from the
requested one; the requested dtype is never consulted, so after a call
the cached device matches the request but the cached dtype need not. -/
theorem C1_set_cell_anchors_device_only (sqrtf : ℚ → ℚ) (g : AnchorsGenerator)
    (dtype : Dtype) (device : Device) :
    (∀ ca, (set_cell_anchors sqrtf g dtype device).cell_anchors = some ca →
      ca.device = device)
    ∧ (g.cell_anchors = none →
        set_cell_anchors sqrtf g dtype device
          = { g with cell_anchors := some (mk_cell_anchors sqrtf g dtype device) })
    ∧ (∀ ca, g.cell_anchors = some ca → ca.device ≠ device →
        set_cell_anchors sqrtf g dtype device
          = { g with cell_anchors := some (mk_cell_anchors sqrtf g dtype device) })
    ∧ (∀ ca, g.cell_anchors = some ca → ca.device = device →
        set_cell_anchors sqrtf g dtype device = g) := by
  unfold set_cell_anchors
  rcases hca : g.cell_anchors with _ | ca
  · refine ⟨?_, fun _ => rfl, by simp, by simp⟩
    intro ca h
    simp only [Option.some.injEq] at h
    subst h
    rfl
  · dsimp only
    by_cases hdev : ca.device = device
    · refine ⟨?_, by simp, ?_, fun _ _ _ => by simp [hdev]⟩
      · intro ca' h
        rw [if_pos hdev] at h
        rw [hca] at h
        simp only [Option.some.injEq] at h
        subst h
        exact hdev
      · intro ca' h h'
        simp only [Option.some.injEq] at h
        subst h
        exact absurd hdev h'
    · refine ⟨?_, by simp, fun ca' h _ => ?_, fun ca' h h' => ?_⟩
      · intro ca' h
        rw [if_neg hdev] at h
        simp only [Option.some.injEq] at h
        subst h
        rfl
      · simp [if_neg hdev]
      · simp only [Option.some.injEq] at h
        subst h
        exact absurd h' hdev

/-- C1 witness: for a generator with templates cached on the requested
device, `set_cell_anchors` is the identity. -/
theorem C1_witness :
    set_cell_anchors (fun q => q)
      ⟨[[32]], [[1]], some ⟨Dtype.float32, Device.cpu, []⟩, []⟩ Dtype.float64 Device.cpu
      = ⟨[[32]], [[1]], some ⟨Dtype.float32, Device.cpu, []⟩, []⟩ :=
  (C1_set_cell_anchors_device_only (fun q => q)
    ⟨[[32]], [[1]], some ⟨Dtype.float32, Device.cpu, []⟩, []⟩
    Dtype.float64 Device.cpu).2.2.2 ⟨Dtype.float32, Device.cpu, []⟩ rfl rfl

/-- C6: the grid cache is populated lazily — `cached_grid_anchors`
returns the cached entry untouched on a hit and inserts the freshly
computed anchors keyed by `(grid_sizes, strides)` on a miss — and
`forward` clears it unconditionally, so the cache of the state returned
by `forward` is always empty. -/
theorem C6_grid_cache_cleared (sqrtf : ℚ → ℚ) (g : AnchorsGenerator)
    (grid_sizes : List (ℕ × ℕ)) (image_size : ℕ × ℕ) (image_sizes : List (ℕ × ℕ))
    (dtype : Dtype) (device : Device) (strides : List (ℕ × ℕ)) :
    ((AnchorsGenerator.forward sqrtf g grid_sizes image_size image_sizes dtype device).2)._cache
        = []
    ∧ ((cached_grid_anchors g grid_sizes strides).2)._cache
        = (if (g._cache.lookup (grid_sizes, strides)).isSome then g._cache
           else ((grid_sizes, strides),
             grid_anchors ((g.cell_anchors.map CellAnchors.boxes).getD []) grid_sizes strides)
             :: g._cache) := by
  constructor
  · rfl
  · unfold cached_grid_anchors
    rcases h : g._cache.lookup (grid_sizes, strides) with _ | v <;> simp [h]

/-- C5: within one `forward` call of the anchor generator (whose grid
cache starts empty, as guaranteed by the per-call clear), every image of
the batch receives the same anchor list — the level-wise grid anchors,
computed once from the grid sizes, the strides derived from the padded
image size, and the cached templates, then concatenated across levels;
the output does not depend on the per-image sizes except through the
batch length. -/
theorem C5_batch_identical_anchors (sqrtf : ℚ → ℚ) (g : AnchorsGenerator)
    (grid_sizes : List (ℕ × ℕ)) (image_size : ℕ × ℕ) (image_sizes : List (ℕ × ℕ))
    (dtype : Dtype) (device : Device) (hc : g._cache = []) :
    (AnchorsGenerator.forward sqrtf g grid_sizes image_size image_sizes dtype device).1
      = List.replicate image_sizes.length
          ((grid_anchors
              (((set_cell_anchors sqrtf g dtype device).cell_anchors.map
                  CellAnchors.boxes).getD [])
              grid_sizes
              (grid_sizes.map fun gsz =>
                (image_size.1 / gsz.1, image_size.2 / gsz.2))).flatten) := by
  have hc1 : (set_cell_anchors sqrtf g dtype device)._cache = [] := by
    rw [set_cell_anchors_cache, hc]
  simp only [AnchorsGenerator.forward, cached_grid_anchors, hc1, List.lookup_nil]
  exact map_const_eq_replicate image_sizes _

/-- C5 witness: a concrete two-image batch in which both images receive
the identical concatenated anchor list. -/
theorem C5_witness :
    (⟨[[32]], [[1]], none, []⟩ : AnchorsGenerator)._cache = []
    ∧ (AnchorsGenerator.forward (fun q => q) ⟨[[32]], [[1]], none, []⟩
          [(1, 1)] (4, 4) [(4, 4), (4, 4)] Dtype.float32 Device.cpu).1
        = List.replicate ([((4 : ℕ), (4 : ℕ)), (4, 4)]).length
            ((grid_anchors
                (((set_cell_anchors (fun q => q) ⟨[[32]], [[1]], none, []⟩
                    Dtype.float32 Device.cpu).cell_anchors.map CellAnchors.boxes).getD [])
                [(1, 1)]
                ([(1, 1)].map fun gsz =>
                  ((4, 4).1 / gsz.1, (4, 4).2 / gsz.2))).flatten) :=
  ⟨rfl, C5_batch_identical_anchors (fun q => q) ⟨[[32]], [[1]], none, []⟩
    [(1, 1)] (4, 4) [(4, 4), (4, 4)] Dtype.float32 Device.cpu rfl⟩

/-- C7: when an image's ground-truth box set is empty,
`assign_targets_to_anchors` labels every anchor of that image `0.0`
(background) and matches every anchor to the all-zero box, returning
normally; this holds for any proposal matcher. -/
theorem C7_empty_gt_all_background (matcher : List (List ℚ) → List ℤ)
    (anchors targets : List (List Box)) (i : ℕ)
    (hi : i < anchors.length) (hl : anchors.length = targets.length)
    (hempty : targets[i]? = some []) :
    ((assign_targets_to_anchors matcher anchors targets).1)[i]?
        = some (List.replicate ((anchors[i]?.getD []).length) (0 : ℚ))
    ∧ ((assign_targets_to_anchors matcher anchors targets).2)[i]?
        = some (List.replicate ((anchors[i]?.getD []).length) zeroBox) := by
  have hiz : i < (anchors.zip targets).length := by
    rw [List.length_zip, hl, min_self]; omega
  have hit : i < targets.length := by omega
  have hzip : (anchors.zip targets)[i]? = some (anchors[i], targets[i]) := by
    rw [List.getElem?_eq_getElem hiz, List.getElem_zip]
  have hta : targets[i] = [] := by
    rw [List.getElem?_eq_getElem hit] at hempty
    exact Option.some_injective _ hempty
  have hga : anchors[i]?.getD [] = anchors[i] := by
    rw [List.getElem?_eq_getElem hi]; rfl
  unfold assign_targets_to_anchors
  refine ⟨?_, ?_⟩ <;> simp [List.getElem?_map, hzip, hta, hga]

/-- C7 witness: one image with one anchor and an empty ground-truth list
gets background labels and a zero matched box. -/
theorem C7_witness :
    (0 : ℕ) < ([[zeroBox]] : List (List Box)).length
    ∧ ([[zeroBox]] : List (List Box)).length = ([[]] : List (List Box)).length
    ∧ ([[]] : List (List Box))[(0 : ℕ)]? = some []
    ∧ ((assign_targets_to_anchors (fun _ => []) [[zeroBox]] [[]]).1)[(0 : ℕ)]?
        = some (List.replicate ((([[zeroBox]] : List (List Box))[(0 : ℕ)]?.getD []).length) (0 : ℚ))
    ∧ ((assign_targets_to_anchors (fun _ => []) [[zeroBox]] [[]]).2)[(0 : ℕ)]?
        = some (List.replicate ((([[zeroBox]] : List (List Box))[(0 : ℕ)]?.getD []).length) zeroBox) :=
  ⟨by decide, rfl, rfl,
    (C7_empty_gt_all_background (fun _ => []) [[zeroBox]] [[]] 0 (by decide) rfl rfl).1,
    (C7_empty_gt_all_background (fun _ => []) [[zeroBox]] [[]] 0 (by decide) rfl rfl).2⟩

/-- C9 counterexample: with training mode off, supplying ground-truth
targets still yields an empty losses dictionary — the branch is gated on
the training flag, not on target presence — refuting the claim that
supplying targets yields the two losses. -/
theorem C9_counterexample :
    RegionProposalNetwork.forward_losses (fun _ => []) (fun _ => ([], []))
      (fun _ _ _ _ => 0) (fun _ _ => []) false [] [] [[zeroBox]]
      (some [[Box.mk 0 0 1 1]]) = .ok none := rfl

/-- C9 (amended): loss computation is gated on training mode, not on
target presence: outside training the losses dictionary is empty even
when targets are supplied; in training mode, missing targets trip the
assertion, and supplied targets yield label assignment, target encoding
and the two scalar losses. -/
theorem C9_losses_gated_on_training
    (matcher : List (List ℚ) → List ℤ)
    (sampler : List (List ℚ) → List (List Bool) × List (List Bool))
    (focal : List ℚ → List ℚ → ℚ → ℚ → ℚ)
    (encode : List (List Box) → List (List Box) → List (List (List ℚ)))
    (objectness : List ℚ) (pred_bbox_deltas : List (List ℚ))
    (anchors : List (List Box)) (targets : Option (List (List Box))) :
    (RegionProposalNetwork.forward_losses matcher sampler focal encode false
        objectness pred_bbox_deltas anchors targets = .ok none)
    ∧ (∀ t, targets = some t →
        RegionProposalNetwork.forward_losses matcher sampler focal encode true
            objectness pred_bbox_deltas anchors targets
          = .ok (some (compute_loss sampler focal objectness pred_bbox_deltas
              (assign_targets_to_anchors matcher anchors t).1
              (encode (assign_targets_to_anchors matcher anchors t).2 anchors))))
    ∧ (targets = none →
        RegionProposalNetwork.forward_losses matcher sampler focal encode true
            objectness pred_bbox_deltas anchors targets
          = .error "targets should not be None") := by
  refine ⟨rfl, ?_, ?_⟩
  · intro t ht
    subst ht
    rfl
  · intro ht
    subst ht
    rfl

/-- C9 witness: in training mode with concrete targets supplied, the two
losses are returned. -/
theorem C9_witness :
    RegionProposalNetwork.forward_losses (fun _ => []) (fun _ => ([], []))
        (fun _ _ _ _ => 0) (fun _ _ => []) true [] [] [[zeroBox]]
        (some [[Box.mk 0 0 1 1]])
      = .ok (some (compute_loss (fun _ => ([], [])) (fun _ _ _ _ => 0) [] []
          (assign_targets_to_anchors (fun _ => []) [[zeroBox]] [[Box.mk 0 0 1 1]]).1
          ((fun _ _ => []) (assign_targets_to_anchors (fun _ => [])
              [[zeroBox]] [[Box.mk 0 0 1 1]]).2 [[zeroBox]]))) :=
  (C9_losses_gated_on_training (fun _ => []) (fun _ => ([], [])) (fun _ _ _ _ => 0)
      (fun _ _ => []) [] [] [[zeroBox]] (some [[Box.mk 0 0 1 1]])).2.1
    [[Box.mk 0 0 1 1]] rfl

/-- The length of `whereTrue` is the number of `true` entries. -/
lemma whereTrue_length (bs : List Bool) : (whereTrue bs).length = bs.count true := by
  induction bs with
  | nil => rfl
  | cons b bs ih =>
    cases b <;> simp [whereTrue, ih, List.count_cons]

/-- Summing `f` over the indices of the `true` entries equals summing the
masked values over all indices. -/
lemma whereTrue_sum_map (bs : List Bool) (f : ℕ → ℚ) :
    ((whereTrue bs).map f).sum
      = ((List.range bs.length).map fun i => if bs.getD i false then f i else 0).sum := by
  induction bs generalizing f with
  | nil => rfl
  | cons b bs ih =>
    simp only [whereTrue, List.map_append, List.sum_append, List.map_map,
      List.length_cons, List.range_succ_eq_map, List.map_cons, List.sum_cons]
    rw [show ((whereTrue bs).map (f ∘ (· + 1))).sum
        = ((whereTrue bs).map fun i => f (i + 1)).sum by rfl,
      ih fun i => f (i + 1)]
    cases b <;> simp [Function.comp_def]

/-- A mask with no `true` entry selects no index. -/
lemma whereTrue_eq_nil (bs : List Bool) (h : bs.count true = 0) : whereTrue bs = [] := by
  induction bs with
  | nil => rfl
  | cons b bs ih =>
    cases b
    · simp only [List.count_cons] at h
      simp [whereTrue, ih (by omega)]
    · simp [List.count_cons] at h

/-- `smooth_l1_loss` over two gathered lists is the sum of per-index row
losses. -/
lemma smooth_l1_loss_map (l : List ℕ) (f g : ℕ → List ℚ) (beta : ℚ) :
    smooth_l1_loss (l.map f) (l.map g) beta
      = (l.map fun i => huberRow (f i) (g i) beta).sum := by
  unfold smooth_l1_loss
  rw [List.zip_map', List.map_map]
  rfl

/-- C2: the localization loss of `compute_loss` is the sum of the
Huber-style (β = 1/9) row losses between predicted deltas and regression
targets over exactly the sampled positive indices, divided by the total
number of sampled indices (positives plus negatives); with zero sampled
positives it is `0`, and the denominator is positive whenever at least
one negative was sampled. -/
theorem C2_compute_loss_localization
    (sampler : List (List ℚ) → List (List Bool) × List (List Bool))
    (focal : List ℚ → List ℚ → ℚ → ℚ → ℚ)
    (objectness : List ℚ) (pred_bbox_deltas : List (List ℚ))
    (labels : List (List ℚ)) (regression_targets : List (List (List ℚ))) :
    (compute_loss sampler focal objectness pred_bbox_deltas labels regression_targets).2
      = (((List.range (sampler labels).1.flatten.length).map fun i =>
            if (sampler labels).1.flatten.getD i false then
              huberRow (pred_bbox_deltas.getD i [])
                (regression_targets.flatten.getD i []) (1 / 9)
            else 0).sum)
        / ((((sampler labels).1.flatten.count true
              + (sampler labels).2.flatten.count true : ℕ) : ℚ))
    ∧ ((sampler labels).1.flatten.count true = 0 →
        (compute_loss sampler focal objectness pred_bbox_deltas labels
          regression_targets).2 = 0)
    ∧ (0 < (sampler labels).2.flatten.count true →
        0 < (sampler labels).1.flatten.count true
          + (sampler labels).2.flatten.count true) := by
  refine ⟨?_, ?_, fun h => by omega⟩
  · simp only [compute_loss]
    rw [smooth_l1_loss_map, whereTrue_sum_map, List.length_append,
      whereTrue_length, whereTrue_length]
  · intro h
    simp only [compute_loss]
    rw [whereTrue_eq_nil _ h]
    simp [smooth_l1_loss]

/-- C2 witness: a sampler returning no positives and one negative gives
a zero localization loss with a nonzero denominator. -/
theorem C2_witness :
    ((fun _ => ([[false]], [[true]])) :
        List (List ℚ) → List (List Bool) × List (List Bool)) [[0]]
      |>.1.flatten.count true = 0
    ∧ (compute_loss (fun _ => ([[false]], [[true]])) (fun _ _ _ _ => 0)
        [0] [[0, 0, 0, 0]] [[0]] [[[0, 0, 0, 0]]]).2 = 0 :=
  ⟨rfl, (C2_compute_loss_localization (fun _ => ([[false]], [[true]]))
    (fun _ _ _ _ => 0) [0] [[0, 0, 0, 0]] [[0]] [[[0, 0, 0, 0]]]).2.1 rfl⟩

/-- Indexing a `flatMap` whose inner lists share length `m`. -/
lemma getElem?_flatMap_uniform {α β : Type} (l : List α) (f : α → List β) (m k j : ℕ)
    (hm : ∀ a ∈ l, (f a).length = m) (hk : k < l.length) (hj : j < m) :
    (l.flatMap f)[k * m + j]? = (f (l.get ⟨k, hk⟩))[j]? := by
  induction l generalizing k with
  | nil => exact absurd hk (by simp)
  | cons a l ih =>
    rw [List.flatMap_cons]
    cases k with
    | zero =>
      simp only [Nat.zero_mul, Nat.zero_add]
      rw [List.getElem?_append, if_pos]
      · rfl
      · rw [hm a (List.mem_cons_self a l)]; exact hj
    | succ k =>
      have hlen : (f a).length = m := hm a (List.mem_cons_self a l)
      have hge : (f a).length ≤ (k + 1) * m + j := by
        rw [hlen]
        have : (k + 1) * m = k * m + m := by ring
        omega
      rw [List.getElem?_append_right hge]
      have harith : (k + 1) * m + j - (f a).length = k * m + j := by
        rw [hlen]
        have : (k + 1) * m = k * m + m := by ring
        omega
      rw [harith]
      have hk' : k < l.length := by simpa using hk
      rw [ih k (fun a ha => hm a (List.mem_cons_of_mem _ ha)) hk']
      rfl

/-- Length of a `flatMap` whose inner lists share length `m`. -/
lemma length_flatMap_const {α β : Type} (l : List α) (f : α → List β) (m : ℕ)
    (hm : ∀ a ∈ l, (f a).length = m) : (l.flatMap f).length = l.length * m := by
  induction l with
  | nil => simp
  | cons a l ih =>
    simp only [List.flatMap_cons, List.length_append, List.length_cons,
      hm a (List.mem_cons_self a l), ih (fun a ha => hm a (List.mem_cons_of_mem _ ha))]
    ring

/-- Element `(i, j)` of the flattened outer product `xs[:, None] ⊗ ys[None, :]`. -/
lemma outer_product_getElem (xs ys : List ℚ) (F : ℚ → ℚ → ℚ) (i j : ℕ)
    (hi : i < xs.length) (hj : j < ys.length) :
    (xs.flatMap fun x => ys.map fun y => F x y)[i * ys.length + j]?
      = some (F (xs.getD i 0) (ys.getD j 0)) := by
  rw [getElem?_flatMap_uniform xs _ ys.length i j (by simp) hi hj]
  rw [List.getElem?_map, List.getElem?_eq_getElem hj]
  simp [List.getD_eq_getElem?_getD, List.getElem?_eq_getElem hi,
    List.getElem?_eq_getElem hj]

/-- Round-half-to-even is an odd function. -/
lemma roundTE_neg (q : ℚ) : roundTE (-q) = -roundTE q := by
  by_cases hint : (⌊q⌋ : ℚ) = q
  · have h1 : ⌊-q⌋ = -⌊q⌋ := by
      rw [← hint, show -((⌊q⌋ : ℤ) : ℚ) = ((-⌊q⌋ : ℤ) : ℚ) by push_cast; ring,
        Int.floor_intCast, Int.floor_intCast]
    unfold roundTE
    rw [h1]
    have e1 : q - (⌊q⌋ : ℚ) = 0 := by linarith
    have e2 : -q - ((-⌊q⌋ : ℤ) : ℚ) = 0 := by push_cast; linarith
    rw [e1, e2]
    norm_num
  · have hlt : (⌊q⌋ : ℚ) < q := lt_of_le_of_ne (Int.floor_le q) hint
    have hup : q < ⌊q⌋ + 1 := Int.lt_floor_add_one q
    have h1 : ⌊-q⌋ = -⌊q⌋ - 1 := by
      rw [Int.floor_eq_iff]
      push_cast
      constructor <;> linarith
    have e2 : -q - ((-⌊q⌋ - 1 : ℤ) : ℚ) = 1 - (q - ⌊q⌋) := by push_cast; ring
    unfold roundTE
    rw [h1, e2]
    split_ifs <;> first | omega | (exfalso; linarith)

/-- Round-half-to-even moves its argument by at most `1/2`. -/
lemma abs_roundTE_sub (q : ℚ) : |(roundTE q : ℚ) - q| ≤ 1 / 2 := by
  have h0 : (⌊q⌋ : ℚ) ≤ q := Int.floor_le q
  have h1 : q < ⌊q⌋ + 1 := Int.lt_floor_add_one q
  unfold roundTE
  split_ifs <;> rw [abs_le] <;> constructor <;> push_cast <;> linarith

/-- `getD` through two maps at an in-bounds index. -/
lemma getD_map_map (l : List ℚ) (f g : ℚ → ℚ) (i : ℕ) (hi : i < l.length) :
    ((l.map f).map g).getD i 0 = g (f (l.getD i 0)) := by
  simp [List.getD_eq_getElem?_getD, List.getElem?_map, List.getElem?_eq_getElem hi]

/-- `getD` through one map at an in-bounds index. -/
lemma getD_map (l : List ℚ) (f : ℚ → ℚ) (i : ℕ) (hi : i < l.length) :
    (l.map f).getD i 0 = f (l.getD i 0) := by
  simp [List.getD_eq_getElem?_getD, List.getElem?_map, List.getElem?_eq_getElem hi]

/-- Indexing a mapped zip when both component lookups succeed. -/
lemma map_zip_getElem? {α : Type} (ws hs : List ℚ) (F : ℚ × ℚ → α) (n : ℕ) (v1 v2 : ℚ)
    (h1 : ws[n]? = some v1) (h2 : hs[n]? = some v2) :
    ((ws.zip hs).map F)[n]? = some (F (v1, v2)) := by
  have hn1 : n < ws.length := by
    by_contra h
    rw [List.getElem?_eq_none (by omega)] at h1
    exact Option.noConfusion h1
  have hn2 : n < hs.length := by
    by_contra h
    rw [List.getElem?_eq_none (by omega)] at h2
    exact Option.noConfusion h2
  have hnz : n < (ws.zip hs).length := by
    rw [List.length_zip]; omega
  rw [List.getElem?_map, List.getElem?_eq_getElem hnz, List.getElem_zip]
  rw [List.getElem?_eq_getElem hn1] at h1
  rw [List.getElem?_eq_getElem hn2] at h2
  rw [Option.some.inj h1, Option.some.inj h2]
  rfl

/-- C3: template `(i, j)` of `generate_anchors` is the box
`(−w/2, −h/2, w/2, h/2)` with `h_ratio = sqrt(aspect_ratio_i)`,
`w_ratio = 1 / h_ratio`, `w = w_ratio * scale_j`, `h = h_ratio * scale_j`,
every coordinate rounded half-to-even; and for aspect ratio `1` (where
`sqrt 1 = 1`) the template's width equals its height and both equal the
scale up to rounding (within `1`). -/
theorem C3_generate_anchors_template (sqrtf : ℚ → ℚ) (scales ars : List ℚ) (i j : ℕ)
    (hi : i < ars.length) (hj : j < scales.length) :
    (generate_anchors sqrtf scales ars)[i * scales.length + j]?
      = some (Box.mk
          ((roundTE (-(1 / sqrtf (ars.getD i 0) * scales.getD j 0) / 2) : ℤ) : ℚ)
          ((roundTE (-(sqrtf (ars.getD i 0) * scales.getD j 0) / 2) : ℤ) : ℚ)
          ((roundTE (1 / sqrtf (ars.getD i 0) * scales.getD j 0 / 2) : ℤ) : ℚ)
          ((roundTE (sqrtf (ars.getD i 0) * scales.getD j 0 / 2) : ℤ) : ℚ))
    ∧ (ars.getD i 0 = 1 → sqrtf 1 = 1 →
        ∀ b, (generate_anchors sqrtf scales ars)[i * scales.length + j]? = some b →
          b.xmax - b.xmin = b.ymax - b.ymin
          ∧ |b.xmax - b.xmin - scales.getD j 0| ≤ 1) := by
  have hmain : (generate_anchors sqrtf scales ars)[i * scales.length + j]?
      = some (Box.mk
          ((roundTE (-(1 / sqrtf (ars.getD i 0) * scales.getD j 0) / 2) : ℤ) : ℚ)
          ((roundTE (-(sqrtf (ars.getD i 0) * scales.getD j 0) / 2) : ℤ) : ℚ)
          ((roundTE (1 / sqrtf (ars.getD i 0) * scales.getD j 0 / 2) : ℤ) : ℚ)
          ((roundTE (sqrtf (ars.getD i 0) * scales.getD j 0 / 2) : ℤ) : ℚ)) := by
    simp only [generate_anchors]
    refine map_zip_getElem? _ _ _ _ _ _ ?_ ?_
    · have h := outer_product_getElem ((ars.map sqrtf).map fun h => 1 / h) scales
        (fun x y => x * y) i j (by simpa using hi) hj
      rw [getD_map_map ars sqrtf (fun h => 1 / h) i hi] at h
      simpa using h
    · have h := outer_product_getElem (ars.map sqrtf) scales
        (fun x y => x * y) i j (by simpa using hi) hj
      rw [getD_map ars sqrtf i hi] at h
      simpa using h
  refine ⟨hmain, ?_⟩
  intro har hs1 b hb
  rw [hmain] at hb
  obtain rfl : b = _ := (Option.some.inj hb).symm
  rw [har, hs1]
  have e1 : (-(1 / 1 * scales.getD j 0) / 2 : ℚ) = -(scales.getD j 0 / 2) := by ring
  have e2 : (-(1 * scales.getD j 0) / 2 : ℚ) = -(scales.getD j 0 / 2) := by ring
  have e3 : (1 / 1 * scales.getD j 0 / 2 : ℚ) = scales.getD j 0 / 2 := by ring
  have e4 : (1 * scales.getD j 0 / 2 : ℚ) = scales.getD j 0 / 2 := by ring
  rw [e1, e2, e3, e4, roundTE_neg]
  have habs := abs_roundTE_sub (scales.getD j 0 / 2)
  rw [abs_le] at habs
  constructor
  · push_cast
    ring
  · rw [abs_le]
    constructor <;> push_cast <;> push_cast at habs <;> [linarith; linarith]

/-- C3 witness: one scale `32` and aspect ratio `1` produce the template
`(-16, -16, 16, 16)`, whose width and height both equal the scale. -/
theorem C3_witness :
    ([(1 : ℚ)]).getD 0 0 = 1
    ∧ (fun (q : ℚ) => q) 1 = 1
    ∧ (generate_anchors (fun q => q) [32] [1])[0 * ([(32 : ℚ)] : List ℚ).length + 0]?
        = some (Box.mk (-16) (-16) 16 16)
    ∧ ((Box.mk (-16 : ℚ) (-16) 16 16).xmax - (Box.mk (-16 : ℚ) (-16) 16 16).xmin
        = (Box.mk (-16 : ℚ) (-16) 16 16).ymax - (Box.mk (-16 : ℚ) (-16) 16 16).ymin)
    ∧ |(Box.mk (-16 : ℚ) (-16) 16 16).xmax - (Box.mk (-16 : ℚ) (-16) 16 16).xmin
        - ([(32 : ℚ)]).getD 0 0| ≤ 1 := by
  have hb : (generate_anchors (fun q => q) [32] [1])[0 * ([(32 : ℚ)] : List ℚ).length + 0]?
      = some (Box.mk (-16) (-16) 16 16) := by
    rw [(C3_generate_anchors_template (fun q => q) [32] [1] 0 0 (by norm_num)
      (by norm_num)).1]
    norm_num [roundTE]
  have h2 := (C3_generate_anchors_template (fun q => q) [32] [1] 0 0 (by norm_num)
      (by norm_num)).2 rfl rfl (Box.mk (-16) (-16) 16 16) hb
  exact ⟨rfl, rfl, hb, h2.1, h2.2⟩

/-- The number of templates is `|aspect_ratios| * |scales|`. -/
lemma length_generate_anchors (sqrtf : ℚ → ℚ) (scales ars : List ℚ) :
    (generate_anchors sqrtf scales ars).length = ars.length * scales.length := by
  simp only [generate_anchors]
  rw [List.length_map, List.length_zip,
    length_flatMap_const _ _ scales.length (by simp),
    length_flatMap_const _ _ scales.length (by simp)]
  simp

/-- The number of grid-instantiated anchors of one level. -/
lemma length_shifts_anchors (b : List Box) (gh gw sh sw : ℕ) :
    (shifts_anchors b gh gw sh sw).length = gh * (gw * b.length) := by
  unfold shifts_anchors
  rw [length_flatMap_const _ _ (gw * b.length) fun y _ => ?_]
  · simp
  · rw [length_flatMap_const _ _ b.length (by simp)]
    simp

/-- `grid_anchors` has one entry per zipped level. -/
lemma length_grid_anchors (cell : List (List Box)) (gs st : List (ℕ × ℕ)) :
    (grid_anchors cell gs st).length = min gs.length (min st.length cell.length) := by
  unfold grid_anchors
  simp [List.length_zip]

/-- Level `ℓ` of `grid_anchors` instantiates level `ℓ`'s templates on
level `ℓ`'s grid with level `ℓ`'s strides. -/
lemma grid_anchors_getElem? (cell : List (List Box)) (gs st : List (ℕ × ℕ)) (ℓ : ℕ)
    (h1 : ℓ < gs.length) (h2 : ℓ < st.length) (h3 : ℓ < cell.length) :
    (grid_anchors cell gs st)[ℓ]?
      = some (shifts_anchors (cell.getD ℓ []) (gs.getD ℓ (0, 0)).1 (gs.getD ℓ (0, 0)).2
          (st.getD ℓ (0, 0)).1 (st.getD ℓ (0, 0)).2) := by
  unfold grid_anchors
  have hz : ℓ < (gs.zip (st.zip cell)).length := by
    simp only [List.length_zip]; omega
  rw [List.getD_eq_getElem cell [] h3, List.getD_eq_getElem gs (0, 0) h1,
    List.getD_eq_getElem st (0, 0) h2]
  rw [List.getElem?_map, List.getElem?_eq_getElem hz, List.getElem_zip, List.getElem_zip]
  rfl

/-- Level `ℓ` of the templates built by `mk_cell_anchors`. -/
lemma mk_cell_anchors_getD (sqrtf : ℚ → ℚ) (g : AnchorsGenerator) (dtype : Dtype)
    (device : Device) (ℓ : ℕ) (har : g.aspect_ratios.length = g.sizes.length)
    (hℓ : ℓ < g.sizes.length) :
    (mk_cell_anchors sqrtf g dtype device).boxes.getD ℓ []
      = generate_anchors sqrtf (g.sizes.getD ℓ []) (g.aspect_ratios.getD ℓ []) := by
  unfold mk_cell_anchors
  have hz : ℓ < (g.sizes.zip g.aspect_ratios).length := by
    rw [List.length_zip]; omega
  have hz' : ℓ < ((g.sizes.zip g.aspect_ratios).map fun p =>
      generate_anchors sqrtf p.1 p.2).length := by simpa using hz
  rw [List.getD_eq_getElem _ [] hz', List.getElem_map, List.getElem_zip]
  rw [List.getD_eq_getElem g.sizes [] hℓ, List.getD_eq_getElem g.aspect_ratios [] (by omega)]

/-- C4: the number of anchors `grid_anchors` produces for level `ℓ`
equals `grid_height * grid_width * (|scales| * |aspect_ratios|)` of that
level (the per-location factor also being `num_anchors_per_location`),
and the total anchor count (all levels concatenated) is the sum of the
per-level counts. -/
theorem C4_anchor_counts (sqrtf : ℚ → ℚ) (g : AnchorsGenerator) (dtype : Dtype)
    (device : Device) (grid_sizes strides : List (ℕ × ℕ)) (ℓ : ℕ)
    (hgs : grid_sizes.length = g.sizes.length)
    (hst : strides.length = g.sizes.length)
    (har : g.aspect_ratios.length = g.sizes.length)
    (hℓ : ℓ < g.sizes.length) :
    ((grid_anchors (mk_cell_anchors sqrtf g dtype device).boxes grid_sizes strides)[ℓ]?).map
        List.length
      = some ((grid_sizes.getD ℓ (0, 0)).1 * (grid_sizes.getD ℓ (0, 0)).2 *
          ((g.sizes.getD ℓ []).length * (g.aspect_ratios.getD ℓ []).length))
    ∧ (num_anchors_per_location g).getD ℓ 0
      = (g.sizes.getD ℓ []).length * (g.aspect_ratios.getD ℓ []).length
    ∧ ((grid_anchors (mk_cell_anchors sqrtf g dtype device).boxes grid_sizes
          strides).flatten).length
      = ((List.range g.sizes.length).map fun k =>
          (grid_sizes.getD k (0, 0)).1 * (grid_sizes.getD k (0, 0)).2 *
            ((g.sizes.getD k []).length * (g.aspect_ratios.getD k []).length)).sum := by
  have hcelllen : (mk_cell_anchors sqrtf g dtype device).boxes.length = g.sizes.length := by
    unfold mk_cell_anchors
    simp [List.length_zip, har]
  have hlevel : ∀ k, k < g.sizes.length →
      ((grid_anchors (mk_cell_anchors sqrtf g dtype device).boxes grid_sizes strides)[k]?).map
          List.length
        = some ((grid_sizes.getD k (0, 0)).1 * (grid_sizes.getD k (0, 0)).2 *
            ((g.sizes.getD k []).length * (g.aspect_ratios.getD k []).length)) := by
    intro k hk
    rw [grid_anchors_getElem? _ _ _ k (by omega) (by omega) (by omega)]
    simp only [Option.map_some']
    congr 1
    rw [length_shifts_anchors, mk_cell_anchors_getD sqrtf g dtype device k har hk,
      length_generate_anchors]
    ring
  refine ⟨hlevel ℓ hℓ, ?_, ?_⟩
  · unfold num_anchors_per_location
    have hz : ℓ < (g.sizes.zip g.aspect_ratios).length := by
      rw [List.length_zip]; omega
    have hz' : ℓ < ((g.sizes.zip g.aspect_ratios).map fun p =>
        p.1.length * p.2.length).length := by simpa using hz
    rw [List.getD_eq_getElem _ 0 hz', List.getElem_map, List.getElem_zip]
    rw [List.getD_eq_getElem g.sizes [] hℓ, List.getD_eq_getElem g.aspect_ratios [] (by omega)]
  · rw [List.length_flatten]
    congr 1
    apply List.ext_getElem?
    intro n
    by_cases hn : n < g.sizes.length
    · rw [List.getElem?_map]
      have := hlevel n hn
      rw [this]
      rw [List.getElem?_map, List.getElem?_eq_getElem (by simpa using hn),
        List.getElem_range]
      rfl
    · rw [List.getElem?_map, List.getElem?_map,
        List.getElem?_eq_none (by rw [length_grid_anchors]; omega),
        List.getElem?_eq_none (by simpa using hn)]
      rfl

/-- C4 witness: one level with one scale and one aspect ratio on a 2×3
grid yields `2 * 3 * (1 * 1)` anchors. -/
theorem C4_witness :
    (0 : ℕ) < (⟨[[32]], [[1]], none, []⟩ : AnchorsGenerator).sizes.length
    ∧ ((grid_anchors (mk_cell_anchors (fun q => q)
            ⟨[[32]], [[1]], none, []⟩ Dtype.float32 Device.cpu).boxes
          [(2, 3)] [(16, 16)])[(0 : ℕ)]?).map List.length
        = some ((([((2 : ℕ), (3 : ℕ))] : List (ℕ × ℕ)).getD 0 (0, 0)).1
            * (([((2 : ℕ), (3 : ℕ))] : List (ℕ × ℕ)).getD 0 (0, 0)).2
            * ((([[(32 : ℚ)]] : List (List ℚ)).getD 0 []).length
                * (([[(1 : ℚ)]] : List (List ℚ)).getD 0 []).length)) :=
  ⟨by decide,
    (C4_anchor_counts (fun q => q) ⟨[[32]], [[1]], none, []⟩ Dtype.float32 Device.cpu
      [(2, 3)] [(16, 16)] 0 rfl rfl rfl (by decide)).1⟩

/-- Inserting into a list permutes the cons. -/
lemma insertSorted_perm (r : ℕ → ℕ → Bool) (a : ℕ) (l : List ℕ) :
    (insertSorted r a l).Perm (a :: l) := by
  induction l with
  | nil => exact List.Perm.refl _
  | cons b bs ih =>
    unfold insertSorted
    split
    · exact List.Perm.refl _
    · exact (ih.cons b).trans (List.Perm.swap a b bs)

/-- Insertion sort permutes its input. -/
lemma isort_perm (r : ℕ → ℕ → Bool) (l : List ℕ) : (isort r l).Perm l := by
  induction l with
  | nil => exact List.Perm.refl _
  | cons a as ih => exact (insertSorted_perm r a (isort r as)).trans (ih.cons a)

/-- Every selected top-k index is a valid index into the score list. -/
lemma topkIdx_mem_lt (xs : List ℚ) (k i : ℕ) (h : i ∈ topkIdx xs k) : i < xs.length := by
  unfold topkIdx at h
  have h2 := List.mem_of_mem_take h
  have h3 := (isort_perm (topOrder xs) (List.range xs.length)).mem_iff.mp h2
  simpa using h3

/-- A prefix sum plus the next entry is bounded by the full sum. -/
lemma take_sum_getD_le (nums : List ℕ) (ℓ : ℕ) (hℓ : ℓ < nums.length) :
    (nums.take ℓ).sum + nums.getD ℓ 0 ≤ nums.sum := by
  have h1 := List.sum_take_succ nums ℓ hℓ
  have h2 : (nums.take (ℓ + 1)).sum ≤ nums.sum := by
    conv_rhs => rw [← List.take_append_drop (ℓ + 1) nums]
    rw [List.sum_append]
    omega
  rw [List.getD_eq_getElem nums 0 hℓ]
  omega

/-- Closed form of the per-level recursion in `get_top_n_idx`: level `ℓ`
selects the top `min(pre_nms_top_n, nums[ℓ])` indices of its own chunk,
shifted by the starting offset plus the anchor count of the preceding
levels. -/
lemma get_top_n_idx_eq (pre : ℕ) (nums : List ℕ) (ob : List ℚ) (offset : ℕ)
    (h : nums.sum ≤ ob.length) :
    get_top_n_idx pre ob nums offset
      = (List.range nums.length).flatMap fun ℓ =>
          (topkIdx ((ob.drop ((nums.take ℓ).sum)).take (nums.getD ℓ 0))
              (min pre (nums.getD ℓ 0))).map (· + (offset + (nums.take ℓ).sum)) := by
  induction nums generalizing ob offset with
  | nil => simp [get_top_n_idx]
  | cons n rest ih =>
    have hn : n ≤ ob.length := by
      rw [List.sum_cons] at h
      omega
    have htl : (ob.take n).length = n := by
      rw [List.length_take]
      omega
    rw [show get_top_n_idx pre ob (n :: rest) offset
        = ((topkIdx (ob.take n) (min pre (ob.take n).length)).map (· + offset))
          ++ get_top_n_idx pre (ob.drop n) rest (offset + n) from rfl]
    rw [List.length_cons, List.range_succ_eq_map, List.flatMap_cons, List.flatMap_map]
    congr 1
    · simp [htl]
    · rw [ih (ob.drop n) (offset + n)
        (by rw [List.length_drop, List.sum_cons] at *; omega)]
      refine congrArg _ ?_
      funext ℓ
      rw [List.take_succ_cons, List.sum_cons, List.getD_cons_succ, List.drop_drop,
        Nat.add_assoc]

/-- C8: given consistent per-level anchor counts, `get_top_n_idx`
concatenates, level by level, the indices of the top
`min(pre_nms_top_n, n_ℓ)` scores of level `ℓ`'s chunk offset by the
anchor count of the preceding levels; the top-k request never exceeds
the chunk's length, and every produced index is a valid global index. -/
theorem C8_get_top_n_idx (pre : ℕ) (ob : List ℚ) (nums : List ℕ)
    (h : nums.sum = ob.length) :
    get_top_n_idx pre ob nums 0
      = ((List.range nums.length).flatMap fun ℓ =>
          (topkIdx ((ob.drop ((nums.take ℓ).sum)).take (nums.getD ℓ 0))
              (min pre (nums.getD ℓ 0))).map (· + (nums.take ℓ).sum))
    ∧ (∀ ℓ, ℓ < nums.length →
        min pre (nums.getD ℓ 0)
          ≤ ((ob.drop ((nums.take ℓ).sum)).take (nums.getD ℓ 0)).length)
    ∧ (∀ i ∈ get_top_n_idx pre ob nums 0, i < ob.length) := by
  have hmain := get_top_n_idx_eq pre nums ob 0 (le_of_eq h)
  have hchunk : ∀ ℓ, ℓ < nums.length →
      ((ob.drop ((nums.take ℓ).sum)).take (nums.getD ℓ 0)).length = nums.getD ℓ 0 := by
    intro ℓ hℓ
    have hb := take_sum_getD_le nums ℓ hℓ
    rw [List.length_take, List.length_drop]
    omega
  refine ⟨?_, ?_, ?_⟩
  · rw [hmain]
    refine congrArg _ ?_
    funext ℓ
    rw [Nat.zero_add]
  · intro ℓ hℓ
    rw [hchunk ℓ hℓ]
    omega
  · intro i hi
    rw [hmain] at hi
    rw [List.mem_flatMap] at hi
    obtain ⟨ℓ, hℓ, hi⟩ := hi
    rw [List.mem_map] at hi
    obtain ⟨t, ht, rfl⟩ := hi
    have hℓ' : ℓ < nums.length := by simpa using hℓ
    have h1 := topkIdx_mem_lt _ _ _ ht
    rw [hchunk ℓ hℓ'] at h1
    have h2 := take_sum_getD_le nums ℓ hℓ'
    omega

/-- C8 witness: two levels with 2 and 1 anchors and `pre_nms_top_n = 1`
select one index per level, offset by the first level's anchor count. -/
theorem C8_witness :
    ([2, 1] : List ℕ).sum = ([(1 : ℚ), 2, 3]).length
    ∧ get_top_n_idx 1 [1, 2, 3] [2, 1] 0
      = ((List.range ([2, 1] : List ℕ).length).flatMap fun ℓ =>
          (topkIdx ((([(1 : ℚ), 2, 3]).drop ((([2, 1] : List ℕ).take ℓ).sum)).take
                (([2, 1] : List ℕ).getD ℓ 0))
              (min 1 (([2, 1] : List ℕ).getD ℓ 0))).map
            (· + (([2, 1] : List ℕ).take ℓ).sum)) :=
  ⟨rfl, (C8_get_top_n_idx 1 [1, 2, 3] [2, 1] rfl).1⟩

/-- Row-major index bound: `(h*W + w)*A + a < H*(W*A)`. -/
lemma idx_bound (h w a H W A : ℕ) (hh : h < H) (hw : w < W) (ha : a < A) :
    (h * W + w) * A + a < H * (W * A) := by
  have h1 : (h * W + w) * A + a < (h * W + w + 1) * A := by
    have e : (h * W + w + 1) * A = (h * W + w) * A + A := by ring
    omega
  have h2 : h * W + w + 1 ≤ H * W := by
    have h3 : (h + 1) * W ≤ H * W := Nat.mul_le_mul_right W (by omega)
    have e : (h + 1) * W = h * W + W := by ring
    omega
  calc (h * W + w) * A + a < (h * W + w + 1) * A := h1
  _ ≤ (H * W) * A := Nat.mul_le_mul_right A h2
  _ = H * (W * A) := by ring

/-- `permute_and_flatten` has `H*(W*A)` rows. -/
lemma length_permute_and_flatten (layer : ℕ → ℕ → ℕ → ℚ) (A C H W : ℕ) :
    (permute_and_flatten layer A C H W).length = H * (W * A) := by
  unfold permute_and_flatten
  rw [length_flatMap_const _ _ (W * A) fun x _ => ?_]
  · simp
  · rw [length_flatMap_const _ _ A (by simp)]
    simp

/-- Row `(h*W + w)*A + a` of `permute_and_flatten` holds channels
`a*C .. a*C+C-1` of grid location `(h, w)`. -/
lemma permute_and_flatten_getElem? (layer : ℕ → ℕ → ℕ → ℚ) (A C H W h w a : ℕ)
    (hh : h < H) (hw : w < W) (ha : a < A) :
    (permute_and_flatten layer A C H W)[(h * W + w) * A + a]?
      = some ((List.range C).map fun c => layer (a * C + c) h w) := by
  unfold permute_and_flatten
  rw [show (h * W + w) * A + a = h * (W * A) + (w * A + a) from by ring]
  have hwa : w * A + a < W * A := by
    have h1 : (w + 1) * A ≤ W * A := Nat.mul_le_mul_right A (by omega)
    have e : (w + 1) * A = w * A + A := by ring
    omega
  rw [getElem?_flatMap_uniform (List.range H) _ (W * A) h (w * A + a)
    (fun x _ => by rw [length_flatMap_const _ _ A (by simp)]; simp)
    (by simpa using hh) hwa]
  simp only [List.get_eq_getElem, List.getElem_range]
  rw [getElem?_flatMap_uniform (List.range W) _ A w a (by simp) (by simpa using hw) ha]
  simp only [List.get_eq_getElem, List.getElem_range]
  rw [List.getElem?_map, List.getElem?_eq_getElem (by simpa using ha), List.getElem_range]
  rfl

/-- Anchor `(h*W + w)*|base| + a` of one level's grid instantiation is
base anchor `a` shifted to grid location `(h, w)`. -/
lemma shifts_anchors_getElem? (base : List Box) (H W sh sw h w a : ℕ)
    (hh : h < H) (hw : w < W) (ha : a < base.length) :
    (shifts_anchors base H W sh sw)[(h * W + w) * base.length + a]?
      = some (Box.mk ((base.getD a zeroBox).xmin + w * sw)
          ((base.getD a zeroBox).ymin + h * sh)
          ((base.getD a zeroBox).xmax + w * sw)
          ((base.getD a zeroBox).ymax + h * sh)) := by
  unfold shifts_anchors
  rw [show (h * W + w) * base.length + a
      = h * (W * base.length) + (w * base.length + a) from by ring]
  have hwa : w * base.length + a < W * base.length := by
    have h1 : (w + 1) * base.length ≤ W * base.length :=
      Nat.mul_le_mul_right base.length (by omega)
    have e : (w + 1) * base.length = w * base.length + base.length := by ring
    omega
  rw [getElem?_flatMap_uniform (List.range H) _ (W * base.length) h (w * base.length + a)
    (fun x _ => by rw [length_flatMap_const _ _ base.length (by simp)]; simp)
    (by simpa using hh) hwa]
  simp only [List.get_eq_getElem, List.getElem_range]
  rw [getElem?_flatMap_uniform (List.range W) _ base.length w a (by simp)
    (by simpa using hw) ha]
  simp only [List.get_eq_getElem, List.getElem_range]
  rw [List.getElem?_map, List.getElem?_eq_getElem ha,
    List.getD_eq_getElem base zeroBox ha]
  rfl

/-- Indexing a flattened list of lists at a block offset plus an
in-block index hits that block. -/
lemma getElem?_flatten_offset {α : Type} (ls : List (List α)) (ℓ j : ℕ) :
    ∀ (hℓ : ℓ < ls.length), j < (ls.get ⟨ℓ, hℓ⟩).length →
      ls.flatten[((ls.take ℓ).map List.length).sum + j]? = (ls.get ⟨ℓ, hℓ⟩)[j]? := by
  induction ls generalizing ℓ with
  | nil => intro hℓ; simp at hℓ
  | cons x ls ih =>
    intro hℓ hj
    cases ℓ with
    | zero =>
      simp only [List.take_zero, List.map_nil, List.sum_nil, Nat.zero_add,
        List.flatten_cons]
      rw [List.getElem?_append, if_pos (show j < x.length from hj)]
      rfl
    | succ ℓ =>
      simp only [List.take_succ_cons, List.map_cons, List.sum_cons, List.flatten_cons,
        Nat.add_assoc]
      rw [List.getElem?_append_right (by omega)]
      rw [show x.length + (((ls.take ℓ).map List.length).sum + j) - x.length
          = ((ls.take ℓ).map List.length).sum + j from by omega]
      exact ih ℓ (by simpa using hℓ) hj

/-- Indexing a `flatMap` at a block offset plus an in-block index hits
that block. -/
lemma getElem?_flatMap_offset {α β : Type} (l : List α) (f : α → List β) (ℓ j : ℕ)
    (hℓ : ℓ < l.length) (hj : j < (f (l.get ⟨ℓ, hℓ⟩)).length) :
    (l.flatMap f)[((l.take ℓ).map fun a => (f a).length).sum + j]?
      = (f (l.get ⟨ℓ, hℓ⟩))[j]? := by
  rw [List.flatMap_def]
  have hℓ' : ℓ < (l.map f).length := by simpa using hℓ
  have hget : (l.map f).get ⟨ℓ, hℓ'⟩ = f (l.get ⟨ℓ, hℓ⟩) := by
    simp [List.get_eq_getElem, List.getElem_map]
  have hoff : (((l.map f).take ℓ).map List.length).sum
      = ((l.take ℓ).map fun a => (f a).length).sum := by
    rw [← List.map_take, List.map_map]
    rfl
  have := getElem?_flatten_offset (l.map f) ℓ j hℓ' (by rw [hget]; exact hj)
  rw [hoff, hget] at this
  exact this

/-- `getD` through the shape projection map at an in-bounds index. -/
lemma getD_map_pair (l : List LevelPred) (k : ℕ) (hk : k < l.length) :
    (l.map fun L => (L.H, L.W)).getD k (0, 0)
      = ((l.getD k default).H, (l.getD k default).W) := by
  rw [List.getD_eq_getElem _ _ (by simpa using hk), List.getElem_map,
    List.getD_eq_getElem _ _ hk]

/-- C10: `concat_box_prediction_layers` flattens each level in
`(h, w, a, channel)` order — grid location major, template minor — which
is exactly the order `grid_anchors` emits anchors, so at the common flat
index `offset_ℓ + (h*W_ℓ + w)*A_ℓ + a` the concatenated score row, the
concatenated delta row and the level-concatenated anchor all refer to
template `a` at grid location `(h, w)` of level `ℓ`. -/
theorem C10_prediction_anchor_alignment (levels : List LevelPred)
    (cell : List (List Box)) (grid_sizes strides : List (ℕ × ℕ))
    (ℓ h w a : ℕ)
    (hgs : grid_sizes = levels.map fun L => (L.H, L.W))
    (hst : strides.length = levels.length)
    (hcl : cell.length = levels.length)
    (hA : ∀ k, k < levels.length →
        (cell.getD k []).length = (levels.getD k default).Ax4 / 4)
    (hℓ : ℓ < levels.length)
    (hh : h < (levels.getD ℓ default).H)
    (hw : w < (levels.getD ℓ default).W)
    (ha : a < (levels.getD ℓ default).Ax4 / 4) :
    ((concat_box_prediction_layers levels).1)[
        ((levels.take ℓ).map fun L => L.H * (L.W * (L.Ax4 / 4))).sum
          + ((h * (levels.getD ℓ default).W + w) * ((levels.getD ℓ default).Ax4 / 4) + a)]?
      = some ((List.range
            ((levels.getD ℓ default).AxC / ((levels.getD ℓ default).Ax4 / 4))).map
          fun c => (levels.getD ℓ default).cls
            (a * ((levels.getD ℓ default).AxC / ((levels.getD ℓ default).Ax4 / 4)) + c) h w)
    ∧ ((concat_box_prediction_layers levels).2)[
        ((levels.take ℓ).map fun L => L.H * (L.W * (L.Ax4 / 4))).sum
          + ((h * (levels.getD ℓ default).W + w) * ((levels.getD ℓ default).Ax4 / 4) + a)]?
      = some ((List.range 4).map
          fun c => (levels.getD ℓ default).reg (a * 4 + c) h w)
    ∧ ((grid_anchors cell grid_sizes strides).flatten)[
        ((levels.take ℓ).map fun L => L.H * (L.W * (L.Ax4 / 4))).sum
          + ((h * (levels.getD ℓ default).W + w) * ((levels.getD ℓ default).Ax4 / 4) + a)]?
      = some (Box.mk
          (((cell.getD ℓ []).getD a zeroBox).xmin + w * (strides.getD ℓ (0, 0)).2)
          (((cell.getD ℓ []).getD a zeroBox).ymin + h * (strides.getD ℓ (0, 0)).1)
          (((cell.getD ℓ []).getD a zeroBox).xmax + w * (strides.getD ℓ (0, 0)).2)
          (((cell.getD ℓ []).getD a zeroBox).ymax + h * (strides.getD ℓ (0, 0)).1)) := by
  have hget : levels.get ⟨ℓ, hℓ⟩ = levels.getD ℓ default := by
    rw [List.get_eq_getElem, List.getD_eq_getElem _ _ hℓ]
  refine ⟨?_, ?_, ?_⟩
  · have hj : (h * (levels.getD ℓ default).W + w) * ((levels.getD ℓ default).Ax4 / 4) + a
        < ((fun L => permute_and_flatten L.cls (L.Ax4 / 4) (L.AxC / (L.Ax4 / 4)) L.H L.W)
            (levels.get ⟨ℓ, hℓ⟩)).length := by
      rw [hget]
      dsimp only
      rw [length_permute_and_flatten]
      exact idx_bound h w a _ _ _ hh hw ha
    have hfl := getElem?_flatMap_offset levels
      (fun L => permute_and_flatten L.cls (L.Ax4 / 4) (L.AxC / (L.Ax4 / 4)) L.H L.W)
      ℓ _ hℓ hj
    rw [hget] at hfl
    simp only [length_permute_and_flatten] at hfl
    show (levels.flatMap fun L =>
        permute_and_flatten L.cls (L.Ax4 / 4) (L.AxC / (L.Ax4 / 4)) L.H L.W)[
          ((levels.take ℓ).map fun L => L.H * (L.W * (L.Ax4 / 4))).sum
            + ((h * (levels.getD ℓ default).W + w) * ((levels.getD ℓ default).Ax4 / 4) + a)]?
      = _
    rw [hfl]
    exact permute_and_flatten_getElem? _ _ _ _ _ h w a hh hw ha
  · have hj : (h * (levels.getD ℓ default).W + w) * ((levels.getD ℓ default).Ax4 / 4) + a
        < ((fun L => permute_and_flatten L.reg (L.Ax4 / 4) 4 L.H L.W)
            (levels.get ⟨ℓ, hℓ⟩)).length := by
      rw [hget]
      dsimp only
      rw [length_permute_and_flatten]
      exact idx_bound h w a _ _ _ hh hw ha
    have hfl := getElem?_flatMap_offset levels
      (fun L => permute_and_flatten L.reg (L.Ax4 / 4) 4 L.H L.W) ℓ _ hℓ hj
    rw [hget] at hfl
    simp only [length_permute_and_flatten] at hfl
    show (levels.flatMap fun L => permute_and_flatten L.reg (L.Ax4 / 4) 4 L.H L.W)[
          ((levels.take ℓ).map fun L => L.H * (L.W * (L.Ax4 / 4))).sum
            + ((h * (levels.getD ℓ default).W + w) * ((levels.getD ℓ default).Ax4 / 4) + a)]?
      = _
    rw [hfl]
    exact permute_and_flatten_getElem? _ _ _ _ _ h w a hh hw ha
  · have hlsl : (grid_anchors cell grid_sizes strides).length = levels.length := by
      rw [length_grid_anchors, hgs]
      simp [hst, hcl]
    have hℓ' : ℓ < (grid_anchors cell grid_sizes strides).length := by
      rw [hlsl]; exact hℓ
    have hgetls : (grid_anchors cell grid_sizes strides).get ⟨ℓ, hℓ'⟩
        = shifts_anchors (cell.getD ℓ []) (levels.getD ℓ default).H
            (levels.getD ℓ default).W (strides.getD ℓ (0, 0)).1
            (strides.getD ℓ (0, 0)).2 := by
      have hq := grid_anchors_getElem? cell grid_sizes strides ℓ
        (by rw [hgs]; simpa using hℓ) (by omega) (by omega)
      rw [List.getElem?_eq_getElem hℓ'] at hq
      rw [List.get_eq_getElem, Option.some.inj hq, hgs, getD_map_pair levels ℓ hℓ]
    have hmaplen : (grid_anchors cell grid_sizes strides).map List.length
        = levels.map fun L => L.H * (L.W * (L.Ax4 / 4)) := by
      apply List.ext_getElem?
      intro n
      by_cases hn : n < levels.length
      · rw [List.getElem?_map,
          grid_anchors_getElem? cell grid_sizes strides n
            (by rw [hgs]; simpa using hn) (by omega) (by omega),
          List.getElem?_map, List.getElem?_eq_getElem hn]
        simp only [Option.map_some']
        congr 1
        rw [length_shifts_anchors, hgs, getD_map_pair levels n hn, hA n hn,
          List.getD_eq_getElem levels default hn]
      · rw [List.getElem?_map, List.getElem?_map,
          List.getElem?_eq_none (by rw [hlsl]; omega),
          List.getElem?_eq_none (by omega)]
        rfl
    have hj3 : (h * (levels.getD ℓ default).W + w) * ((levels.getD ℓ default).Ax4 / 4) + a
        < ((grid_anchors cell grid_sizes strides).get ⟨ℓ, hℓ'⟩).length := by
      rw [hgetls, length_shifts_anchors, hA ℓ hℓ]
      exact idx_bound h w a _ _ _ hh hw ha
    have hfl3 := getElem?_flatten_offset (grid_anchors cell grid_sizes strides)
      ℓ ((h * (levels.getD ℓ default).W + w) * ((levels.getD ℓ default).Ax4 / 4) + a)
      hℓ' hj3
    rw [List.map_take, hmaplen, ← List.map_take] at hfl3
    rw [hfl3, hgetls, ← hA ℓ hℓ]
    exact shifts_anchors_getElem? (cell.getD ℓ []) _ _ _ _ h w a hh hw
      (by rw [hA ℓ hℓ]; exact ha)

/-- C10 witness: with one level holding a single template on a 1-by-2
grid, flat index 1 selects grid location `(0, 1)` in both the flattened
class scores and the concatenated anchors. -/
theorem C10_witness :
    (0 : ℕ) < [exampleLevel].length
    ∧ ((concat_box_prediction_layers [exampleLevel]).1)[
        (([exampleLevel].take 0).map fun L => L.H * (L.W * (L.Ax4 / 4))).sum
          + ((0 * ([exampleLevel].getD 0 default).W + 1)
              * (([exampleLevel].getD 0 default).Ax4 / 4) + 0)]?
      = some ((List.range (([exampleLevel].getD 0 default).AxC
            / (([exampleLevel].getD 0 default).Ax4 / 4))).map
          fun c => ([exampleLevel].getD 0 default).cls
            (0 * (([exampleLevel].getD 0 default).AxC
              / (([exampleLevel].getD 0 default).Ax4 / 4)) + c) 0 1)
    ∧ ((grid_anchors [[Box.mk 0 0 1 1]] [(1, 2)] [(16, 16)]).flatten)[
        (([exampleLevel].take 0).map fun L => L.H * (L.W * (L.Ax4 / 4))).sum
          + ((0 * ([exampleLevel].getD 0 default).W + 1)
              * (([exampleLevel].getD 0 default).Ax4 / 4) + 0)]?
      = some (Box.mk
          ((([[Box.mk (0 : ℚ) 0 1 1]].getD 0 []).getD 0 zeroBox).xmin
            + ((1 : ℕ) : ℚ) * ((([((16 : ℕ), (16 : ℕ))]).getD 0 (0, 0)).2 : ℕ))
          ((([[Box.mk (0 : ℚ) 0 1 1]].getD 0 []).getD 0 zeroBox).ymin
            + ((0 : ℕ) : ℚ) * ((([((16 : ℕ), (16 : ℕ))]).getD 0 (0, 0)).1 : ℕ))
          ((([[Box.mk (0 : ℚ) 0 1 1]].getD 0 []).getD 0 zeroBox).xmax
            + ((1 : ℕ) : ℚ) * ((([((16 : ℕ), (16 : ℕ))]).getD 0 (0, 0)).2 : ℕ))
          ((([[Box.mk (0 : ℚ) 0 1 1]].getD 0 []).getD 0 zeroBox).ymax
            + ((0 : ℕ) : ℚ) * ((([((16 : ℕ), (16 : ℕ))]).getD 0 (0, 0)).1 : ℕ))) := by
  have h := C10_prediction_anchor_alignment [exampleLevel] [[Box.mk 0 0 1 1]]
    [(1, 2)] [(16, 16)] 0 0 1 0 rfl rfl rfl
    (by intro k hk
        have hk0 : k = 0 := Nat.lt_one_iff.mp (by simpa using hk)
        subst hk0
        rfl)
    (by decide) (by decide) (by decide) (by decide)
  exact ⟨by decide, h.1, h.2.2⟩
